import Mathlib

/-!
Verification of the teleop keyboard node
(`teleop_keyboard/teleop_keyboardpy.py`).

The node keeps a set of currently pressed character keys, resolves a
target (linear, angular) velocity from it, and a periodic timer publishes
a `Twist` message only when it differs from the last published one.
On node destruction a zero `Twist` is published unconditionally.

Velocities are modelled as rationals: the program only ever manipulates
`0`, `±linear_speed` and `±angular_speed` and compares them exactly, so
the embedding is faithful to the floating-point original.
-/

namespace Teleop

/-- A `geometry_msgs/Twist` restricted to the two fields the node uses:
`linear.x` and `angular.z`.  `Twist()` in Python zero-initialises both. -/
structure Twist where
  linear : ℚ
  angular : ℚ
  deriving DecidableEq, Repr

/-- The zero message `Twist()`. -/
def Twist.zero : Twist := ⟨0, 0⟩

/-- A pynput key event payload: either a character key (whose `.char`
attribute exists) or a special key (`Shift`, `Ctrl`, ... — accessing
`.char` raises `AttributeError`). -/
inductive Key where
  | char (c : Char)
  | special
  deriving DecidableEq, Repr

/-- The mutable state of `TeleopKeyboardNode`: the two speed parameters
(read-only after `__init__`), the target velocity registers, the set of
pressed keys, and the last published twist. -/
structure NodeState where
  linear_speed : ℚ
  angular_speed : ℚ
  target_linear_vel : ℚ
  target_angular_vel : ℚ
  pressed_keys : Finset Char
  last_published_twist : Twist
  deriving DecidableEq

/-- `__init__`: targets start at `0.0`, no key pressed,
`last_published_twist = Twist()`. -/
def initState (ls as : ℚ) : NodeState :=
  { linear_speed := ls
    angular_speed := as
    target_linear_vel := 0
    target_angular_vel := 0
    pressed_keys := ∅
    last_published_twist := Twist.zero }

/-- `update_target_velocities`: resets both targets to `0.0`, then runs
four independent `if` statements in order (`'w'`, `'s'`, `'a'`, `'d'`),
each overwriting the corresponding axis. -/
def update_target_velocities (s : NodeState) : NodeState :=
  let lin1 : ℚ := if 'w' ∈ s.pressed_keys then s.linear_speed else 0
  let lin2 : ℚ := if 's' ∈ s.pressed_keys then -s.linear_speed else lin1
  let ang1 : ℚ := if 'a' ∈ s.pressed_keys then s.angular_speed else 0
  let ang2 : ℚ := if 'd' ∈ s.pressed_keys then -s.angular_speed else ang1
  { s with target_linear_vel := lin2, target_angular_vel := ang2 }

/-- The velocity resolution expressed as a pure function of the speed
parameters and the key set; `resolve_eq` below shows it is exactly what
`update_target_velocities` computes. -/
def resolve (ls as : ℚ) (keys : Finset Char) : ℚ × ℚ :=
  ( if 's' ∈ keys then -ls else if 'w' ∈ keys then ls else 0
  , if 'd' ∈ keys then -as else if 'a' ∈ keys then as else 0 )

/-- `on_press`: for a special key, `key.char` raises `AttributeError`
which is swallowed.  For a character key the character is added to
`pressed_keys` (with no alphabet filter) and the targets are recomputed,
but only if it was not already a member. -/
def on_press (s : NodeState) (k : Key) : NodeState :=
  match k with
  | Key.special => s
  | Key.char c =>
    if c ∉ s.pressed_keys then
      update_target_velocities { s with pressed_keys := insert c s.pressed_keys }
    else s

/-- `on_release`: for a special key the `AttributeError` is swallowed.
For a character key, it is removed and the targets recomputed, but only
if it was a member. -/
def on_release (s : NodeState) (k : Key) : NodeState :=
  match k with
  | Key.special => s
  | Key.char c =>
    if c ∈ s.pressed_keys then
      update_target_velocities { s with pressed_keys := s.pressed_keys.erase c }
    else s

/-- `publish_twist_if_changed` (the 100 ms timer callback): builds a
`Twist` from the targets (the local `twist` with `twist.linear.x =
target_linear_vel` and `twist.angular.z = target_angular_vel` is inlined
here), publishes it and records it as `last_published_twist` only if
either compared field differs. -/
def publish_twist_if_changed (s : NodeState) : NodeState × Option Twist :=
  if s.target_linear_vel ≠ s.last_published_twist.linear ∨
      s.target_angular_vel ≠ s.last_published_twist.angular then
    ({ s with last_published_twist := ⟨s.target_linear_vel, s.target_angular_vel⟩ },
      some ⟨s.target_linear_vel, s.target_angular_vel⟩)
  else
    (s, none)

/-- `destroy_node`: publishes `stop_twist = Twist()` directly on the
publisher, with no comparison against `last_published_twist` and no
update of it. -/
def destroy_node (s : NodeState) : NodeState × Twist :=
  (s, Twist.zero)

/-- An external event hitting the node: a key press, a key release, or a
firing of the periodic timer. -/
inductive Event where
  | press (k : Key)
  | release (k : Key)
  | tick
  deriving DecidableEq, Repr

/-- One event step; returns the next state and the list of messages
published during the step (empty or a singleton). -/
def step (s : NodeState) (e : Event) : NodeState × List Twist :=
  match e with
  | Event.press k => (on_press s k, [])
  | Event.release k => (on_release s k, [])
  | Event.tick =>
    let r := publish_twist_if_changed s
    (r.1, r.2.toList)

/-- Run a list of events from a state, collecting all published messages
in order. -/
def run (s : NodeState) : List Event → NodeState × List Twist
  | [] => (s, [])
  | e :: es =>
    let r1 := step s e
    let r2 := run r1.1 es
    (r2.1, r1.2 ++ r2.2)

/-- `main`: spin the node over its event stream, then (in the `finally`
block, on interrupt or normal exit) call `destroy_node` exactly once,
which publishes the final stop command. -/
def mainRun (ls as : ℚ) (events : List Event) : List Twist :=
  let r := run (initState ls as) events
  r.2 ++ [(destroy_node r.1).2]

/-- Modelled from the spec: the claimed net effect of a single event on
the key membership set — press inserts, release removes, anything else
leaves the set alone. -/
def netEffect (ks : Finset Char) : Event → Finset Char
  | Event.press (Key.char c) => insert c ks
  | Event.release (Key.char c) => ks.erase c
  | _ => ks

/-- Modelled from the spec: the claimed net effect of a whole event
sequence on the key membership set. -/
def netKeys (ks : Finset Char) : List Event → Finset Char
  | [] => ks
  | e :: es => netKeys (netEffect ks e) es

/-- The target-velocity range invariant: each axis holds `0` or `±` its
speed parameter. -/
def velOK (s : NodeState) : Prop :=
  (s.target_linear_vel = 0 ∨ s.target_linear_vel = s.linear_speed ∨
    s.target_linear_vel = -s.linear_speed) ∧
  (s.target_angular_vel = 0 ∨ s.target_angular_vel = s.angular_speed ∨
    s.target_angular_vel = -s.angular_speed)

instance (s : NodeState) : Decidable (velOK s) := by
  unfold velOK; infer_instance

/- ### Basic lemmas -/

theorem resolve_eq (s : NodeState) :
    update_target_velocities s =
      { s with
        target_linear_vel := (resolve s.linear_speed s.angular_speed s.pressed_keys).1
        target_angular_vel := (resolve s.linear_speed s.angular_speed s.pressed_keys).2 } := by
  rfl

theorem update_keys (s : NodeState) :
    (update_target_velocities s).pressed_keys = s.pressed_keys := rfl

theorem on_press_char (s : NodeState) (c : Char) :
    on_press s (Key.char c) =
      if c ∉ s.pressed_keys then
        update_target_velocities { s with pressed_keys := insert c s.pressed_keys }
      else s := rfl

theorem on_release_char (s : NodeState) (c : Char) :
    on_release s (Key.char c) =
      if c ∈ s.pressed_keys then
        update_target_velocities { s with pressed_keys := s.pressed_keys.erase c }
      else s := rfl

theorem update_speeds (s : NodeState) :
    (update_target_velocities s).linear_speed = s.linear_speed ∧
      (update_target_velocities s).angular_speed = s.angular_speed := ⟨rfl, rfl⟩

theorem update_velOK (s : NodeState) : velOK (update_target_velocities s) := by
  rw [resolve_eq]
  unfold velOK resolve
  constructor
  · by_cases hs : 's' ∈ s.pressed_keys <;> by_cases hw : 'w' ∈ s.pressed_keys <;>
      simp [hs, hw]
  · by_cases hd : 'd' ∈ s.pressed_keys <;> by_cases ha : 'a' ∈ s.pressed_keys <;>
      simp [hd, ha]

theorem publish_fields (s : NodeState) :
    ((publish_twist_if_changed s).1).last_published_twist =
      ⟨s.target_linear_vel, s.target_angular_vel⟩ ∧
    ((publish_twist_if_changed s).1).target_linear_vel = s.target_linear_vel ∧
    ((publish_twist_if_changed s).1).target_angular_vel = s.target_angular_vel ∧
    ((publish_twist_if_changed s).1).pressed_keys = s.pressed_keys ∧
    ((publish_twist_if_changed s).1).linear_speed = s.linear_speed ∧
    ((publish_twist_if_changed s).1).angular_speed = s.angular_speed := by
  unfold publish_twist_if_changed
  split
  · exact ⟨rfl, rfl, rfl, rfl, rfl, rfl⟩
  · next h =>
    push_neg at h
    refine ⟨?_, rfl, rfl, rfl, rfl, rfl⟩
    obtain ⟨h1, h2⟩ := h
    cases hl : s.last_published_twist with
    | mk l a => simp_all

theorem publish_none_of_eq (s : NodeState)
    (h : s.last_published_twist = ⟨s.target_linear_vel, s.target_angular_vel⟩) :
    (publish_twist_if_changed s).2 = none := by
  unfold publish_twist_if_changed
  rw [h]
  simp

theorem publish_second_none (s : NodeState) :
    (publish_twist_if_changed (publish_twist_if_changed s).1).2 = none := by
  obtain ⟨hlast, hlin, hang, -, -, -⟩ := publish_fields s
  apply publish_none_of_eq
  rw [hlast, hlin, hang]

theorem run_pressed_keys (evs : List Event) :
    ∀ s : NodeState, ((run s evs).1).pressed_keys = netKeys s.pressed_keys evs := by
  induction evs with
  | nil => intro s; rfl
  | cons e es ih =>
    intro s
    show ((run (step s e).1 es).1).pressed_keys = netKeys (netEffect s.pressed_keys e) es
    rw [ih]
    congr 1
    cases e with
    | press k =>
      cases k with
      | special => rfl
      | char c =>
        show (on_press s (Key.char c)).pressed_keys = insert c s.pressed_keys
        rw [on_press_char]
        split
        · exact update_keys _
        · next h =>
          rw [not_not] at h
          exact (Finset.insert_eq_self.mpr h).symm
    | release k =>
      cases k with
      | special => rfl
      | char c =>
        show (on_release s (Key.char c)).pressed_keys = s.pressed_keys.erase c
        rw [on_release_char]
        split
        · exact update_keys _
        · next h => exact (Finset.erase_eq_of_not_mem h).symm
    | tick => exact (publish_fields s).2.2.2.1

theorem step_velOK (s : NodeState) (e : Event) (h : velOK s) : velOK (step s e).1 := by
  cases e with
  | press k =>
    cases k with
    | special => exact h
    | char c =>
      show velOK (on_press s (Key.char c))
      rw [on_press_char]
      split
      · exact update_velOK _
      · exact h
  | release k =>
    cases k with
    | special => exact h
    | char c =>
      show velOK (on_release s (Key.char c))
      rw [on_release_char]
      split
      · exact update_velOK _
      · exact h
  | tick =>
    obtain ⟨-, h1, h2, -, h3, h4⟩ := publish_fields s
    show velOK (publish_twist_if_changed s).1
    unfold velOK
    rw [h1, h2, h3, h4]
    exact h

theorem run_velOK (evs : List Event) :
    ∀ s : NodeState, velOK s → velOK ((run s evs).1) := by
  induction evs with
  | nil => intro s h; exact h
  | cons e es ih => intro s h; exact ih _ (step_velOK s e h)

theorem update_target_fields (s : NodeState) :
    (update_target_velocities s).target_linear_vel =
      (resolve s.linear_speed s.angular_speed s.pressed_keys).1 ∧
    (update_target_velocities s).target_angular_vel =
      (resolve s.linear_speed s.angular_speed s.pressed_keys).2 := ⟨rfl, rfl⟩

/- ### Claim theorems -/

/-- C1: on controlled termination, `main` calls `destroy_node` exactly once,
which publishes exactly one zero-velocity command directly on the publisher
(no comparison against `last_published_twist`, regardless of the final
state), and that command is the last one sent. -/
theorem C1_shutdown_stop (ls as : ℚ) (events : List Event) (s : NodeState) :
    mainRun ls as events = (run (initState ls as) events).2 ++ [Twist.zero] ∧
    (mainRun ls as events).getLast? = some Twist.zero ∧
    (destroy_node s).2 = Twist.zero := by
  refine ⟨rfl, ?_, rfl⟩
  show ((run (initState ls as) events).2 ++ [Twist.zero]).getLast? = some Twist.zero
  simp

/-- C3: the velocity resolution is a pure deterministic function `resolve`
of the speed parameters and the key set (as `update_target_velocities`
computes exactly it), and on the non-conflicting key sets of the claim it
returns `(0, 0)`, `(+linearSpeed, 0)` and `(+linearSpeed, -angularSpeed)`. -/
theorem C3_resolver_values (ls as : ℚ) (s : NodeState) :
    resolve ls as ∅ = (0, 0) ∧
    resolve ls as {'w'} = (ls, 0) ∧
    resolve ls as {'w', 'd'} = (ls, -as) ∧
    update_target_velocities s =
      { s with
        target_linear_vel := (resolve s.linear_speed s.angular_speed s.pressed_keys).1
        target_angular_vel := (resolve s.linear_speed s.angular_speed s.pressed_keys).2 } := by
  refine ⟨?_, ?_, ?_, resolve_eq s⟩ <;> simp [resolve]

/-- C4: the change gate is idempotent: a second consecutive tick with the
target-velocity register unchanged never emits, so two consecutive ticks
produce at most one emission; in particular with target `(0, 0)` and a
differing `last_published_twist`, two ticks emit the stop command exactly
once. -/
theorem C4_gate_idempotent (s : NodeState) :
    (publish_twist_if_changed (publish_twist_if_changed s).1).2 = none ∧
    (run s [Event.tick, Event.tick]).2.length ≤ 1 ∧
    (s.target_linear_vel = 0 → s.target_angular_vel = 0 →
      s.last_published_twist ≠ Twist.zero →
      (run s [Event.tick, Event.tick]).2 = [Twist.zero]) := by
  have hsecond := publish_second_none s
  have hrun : (run s [Event.tick, Event.tick]).2 =
      (publish_twist_if_changed s).2.toList ++
        (publish_twist_if_changed (publish_twist_if_changed s).1).2.toList := by
    simp [run, step]
  refine ⟨hsecond, ?_, ?_⟩
  · rw [hrun, hsecond]
    cases (publish_twist_if_changed s).2 <;> simp
  · intro h1 h2 h3
    rw [hrun, hsecond]
    have hfirst : (publish_twist_if_changed s).2 = some Twist.zero := by
      unfold publish_twist_if_changed
      split
      · next =>
        simp only [Option.some.injEq]
        rw [h1, h2]; rfl
      · next h =>
        exfalso
        push_neg at h
        apply h3
        obtain ⟨hl, ha⟩ := h
        cases hlast : s.last_published_twist with
        | mk l a => simp_all [Twist.zero]
    rw [hfirst]
    rfl

/-- C4 witness: with target `(0, 0)` and `last_published_twist = (1, 0)`,
two consecutive ticks emit the stop command exactly once. -/
theorem C4_gate_idempotent_witness :
    (run { initState 1 2 with last_published_twist := ⟨1, 0⟩ }
      [Event.tick, Event.tick]).2 = [Twist.zero] :=
  (C4_gate_idempotent { initState 1 2 with last_published_twist := ⟨1, 0⟩ }).2.2
    rfl rfl (by decide)

/-- C2 counterexample: the claim says forward wins when `'w'` and `'s'`
are both held and turn-left wins when `'a'` and `'d'` are both held; with
`linear_speed = 1` and `angular_speed = 2` the code resolves those key
sets to `-1` and `-2` — the opposite keys win. -/
theorem C2_counterexample :
    (update_target_velocities
      { initState 1 2 with pressed_keys := {'w', 's'} }).target_linear_vel = -1 ∧
    (update_target_velocities
      { initState 1 2 with pressed_keys := {'a', 'd'} }).target_angular_vel = -2 ∧
    (-1 : ℚ) ≠ 1 ∧ (-2 : ℚ) ≠ 2 := by decide

/-- C2 amended: the four `if` statements are not chained with `elif`, so
the later check wins: holding both `'w'` and `'s'` resolves the linear
velocity to `-linear_speed` (backward precedence), and holding both `'a'`
and `'d'` resolves the angular velocity to `-angular_speed` (turn-right
precedence). -/
theorem C2_conflict_last_checked_wins (s : NodeState) :
    ('w' ∈ s.pressed_keys → 's' ∈ s.pressed_keys →
      (update_target_velocities s).target_linear_vel = -s.linear_speed) ∧
    ('a' ∈ s.pressed_keys → 'd' ∈ s.pressed_keys →
      (update_target_velocities s).target_angular_vel = -s.angular_speed) := by
  obtain ⟨h1, h2⟩ := update_target_fields s
  rw [h1, h2]
  constructor
  · intro _ hs; simp [resolve, hs]
  · intro _ hd; simp [resolve, hd]

/-- C2 amended witness: with all four keys held the targets are
`(-linear_speed, -angular_speed)`. -/
theorem C2_conflict_last_checked_wins_witness :
    (update_target_velocities
      { initState 1 2 with pressed_keys := {'w', 's', 'a', 'd'} }).target_linear_vel = -1 ∧
    (update_target_velocities
      { initState 1 2 with pressed_keys := {'w', 's', 'a', 'd'} }).target_angular_vel = -2 := by
  have h := C2_conflict_last_checked_wins
    { initState 1 2 with pressed_keys := {'w', 's', 'a', 'd'} }
  exact ⟨h.1 (by decide) (by decide), h.2 (by decide) (by decide)⟩

/-- C5 counterexample: a key-down for the unrecognized character `'x'`
does NOT leave the key-state set unchanged — `on_press` has no alphabet
filter, so `'x'` is inserted. -/
theorem C5_counterexample :
    (on_press (initState 1 2) (Key.char 'x')).pressed_keys ≠
      (initState 1 2).pressed_keys := by decide

/-- C5 amended: a key-down for a non-character key is fully ignored
(`AttributeError` swallowed); a key-down for an unrecognized character
key raises no error and leaves the target velocity unchanged (provided
the targets are consistent with the key set, as they always are in
reachable states), but it DOES add the character to the key-state set. -/
theorem C5_unrecognized_press (s : NodeState) (c : Char) :
    on_press s Key.special = s ∧
    (c ≠ 'w' → c ≠ 's' → c ≠ 'a' → c ≠ 'd' →
      (s.target_linear_vel, s.target_angular_vel) =
        resolve s.linear_speed s.angular_speed s.pressed_keys →
      (on_press s (Key.char c)).pressed_keys = insert c s.pressed_keys ∧
      (on_press s (Key.char c)).target_linear_vel = s.target_linear_vel ∧
      (on_press s (Key.char c)).target_angular_vel = s.target_angular_vel) := by
  refine ⟨rfl, ?_⟩
  intro hw hs ha hd hres
  have hres2 : resolve s.linear_speed s.angular_speed (insert c s.pressed_keys) =
      resolve s.linear_speed s.angular_speed s.pressed_keys := by
    unfold resolve
    simp [Finset.mem_insert, Ne.symm hw, Ne.symm hs, Ne.symm ha, Ne.symm hd]
  rw [on_press_char]
  split
  · refine ⟨update_keys _, ?_, ?_⟩
    · show (resolve s.linear_speed s.angular_speed (insert c s.pressed_keys)).1 =
        s.target_linear_vel
      rw [hres2]
      exact (congrArg Prod.fst hres).symm
    · show (resolve s.linear_speed s.angular_speed (insert c s.pressed_keys)).2 =
        s.target_angular_vel
      rw [hres2]
      exact (congrArg Prod.snd hres).symm
  · next hmem =>
    rw [not_not] at hmem
    exact ⟨(Finset.insert_eq_self.mpr hmem).symm, rfl, rfl⟩

/-- C5 amended witness: pressing `'x'` on the fresh state inserts `'x'`
and keeps the targets at `(0, 0)`. -/
theorem C5_unrecognized_press_witness :
    (on_press (initState 1 2) (Key.char 'x')).pressed_keys =
      insert 'x' (∅ : Finset Char) ∧
    (on_press (initState 1 2) (Key.char 'x')).target_linear_vel = 0 ∧
    (on_press (initState 1 2) (Key.char 'x')).target_angular_vel = 0 :=
  (C5_unrecognized_press (initState 1 2) 'x').2
    (by decide) (by decide) (by decide) (by decide) (by decide)

/-- C9 counterexample: `last_published_twist` is initialised to
`Twist()` = `(0, 0)` at construction — not to "none" — so the first tick
with a sampled target of `(0, 0)` does NOT differ from it and emits
nothing, contradicting the claimed consequence. -/
theorem C9_counterexample :
    (initState 1 2).last_published_twist = Twist.zero ∧
    (publish_twist_if_changed (initState 1 2)).2 = none := by decide

/-- C9 amended: `last_published_twist` is initialised to the zero twist
`(0, 0)` at construction; it is updated only on a successful emission
(a non-emitting tick leaves the state unchanged, an emitting tick records
exactly the emitted twist); consequently on the first tick a sampled
target equal to `(0, 0)` does not differ from it. -/
theorem C9_last_emitted_init_zero (ls as : ℚ) (s : NodeState) :
    (initState ls as).last_published_twist = Twist.zero ∧
    ((publish_twist_if_changed s).2 = none → (publish_twist_if_changed s).1 = s) ∧
    (∀ t : Twist, (publish_twist_if_changed s).2 = some t →
      ((publish_twist_if_changed s).1).last_published_twist = t) ∧
    (publish_twist_if_changed (initState ls as)).2 = none := by
  refine ⟨rfl, ?_, ?_, ?_⟩
  · unfold publish_twist_if_changed
    split
    · intro h; exact Option.noConfusion h
    · intro _; rfl
  · intro t
    unfold publish_twist_if_changed
    split
    · intro h
      cases h
      rfl
    · intro h; exact Option.noConfusion h
  · apply publish_none_of_eq
    rfl

/-- C9 amended witness: with target `(1, 0)` the tick emits `(1, 0)` and
records it as `last_published_twist`. -/
theorem C9_last_emitted_init_zero_witness :
    ((publish_twist_if_changed
      { initState 1 2 with target_linear_vel := 1 }).1).last_published_twist =
      ⟨1, 0⟩ :=
  (C9_last_emitted_init_zero 1 2
    { initState 1 2 with target_linear_vel := 1 }).2.2.1 ⟨1, 0⟩ (by decide)

/-- C6: a release of a key not in the set is a no-op (and so is a release
of a special key), and a press of a key already in the set is a no-op:
the whole state, targets included, is unchanged and no recomputation
happens. -/
theorem C6_noop_events (s : NodeState) (c : Char) :
    (c ∉ s.pressed_keys → on_release s (Key.char c) = s) ∧
    (c ∈ s.pressed_keys → on_press s (Key.char c) = s) ∧
    on_release s Key.special = s := by
  refine ⟨?_, ?_, rfl⟩ <;> intro h <;> simp [on_release, on_press, h]

/-- C6 witness: releasing `'w'` on the fresh state is a no-op. -/
theorem C6_noop_events_witness :
    on_release (initState 1 2) (Key.char 'w') = initState 1 2 :=
  (C6_noop_events (initState 1 2) 'w').1 (by decide)

/-- C7: for every event sequence starting from the empty key set, the
final key membership equals the net insert/remove effect of the events. -/
theorem C7_key_state_net (ls as : ℚ) (evs : List Event) :
    ((run (initState ls as) evs).1).pressed_keys = netKeys ∅ evs :=
  run_pressed_keys evs (initState ls as)

/-- C8: after any event sequence from the initial state, the target linear
velocity is one of `{0, +linear_speed, -linear_speed}` and the target
angular velocity one of `{0, +angular_speed, -angular_speed}`. -/
theorem C8_velocity_range (ls as : ℚ) (evs : List Event) :
    velOK ((run (initState ls as) evs).1) :=
  run_velOK evs (initState ls as) (by constructor <;> exact Or.inl rfl)

end Teleop
